import Mathlib

/-!
Shallow embedding of `src/main.rs` of `numbers-master-rust`, an interactive
"hits and blows" (Bulls-and-Cows for digits) terminal game, together with
theorems settling the specification claims about it.

The embedding keeps the source's structure:
* `Game.new` models `Game::new` — level validation, the shuffled pool of
  digits `1..=9`, insertion of `0` at a random index, taking the first
  `level` digits, and the string→`u32` round-trip that stores the secret as
  a decimal integer (`natOfDigits`).  The two random choices of the RNG
  (the shuffled pool and the zero index) are passed in as parameters.
* `check_guess` models `Game::check_guess` — the secret's digit sequence is
  reconstructed from the stored integer (`decDigits`, i.e. `to_string`),
  the guess characters are converted with `to_digit(10).unwrap()`
  (`charToDigit?`; a `none` result models the unwrap panic), and the two
  scoring loops are `scoreDigits`.  An out-of-range index into the guess
  vector (reachable only when the guess is shorter than the reconstructed
  secret) is likewise modelled as `none`.
* `tick` / `run` model one iteration / the whole `loop` of `Game::play`:
  per tick the loop computes the saturating remaining time, returns `Lose`
  with the stop flag raised on timeout, drains at most one character from
  the input channel, scores a full buffer, and either returns `Won` with
  the stop flag raised or increments `attempts`, re-anchors the clock and
  clears the buffer.  Rendering is a no-op in the model; time is an
  abstract `Nat` of elapsed whole seconds supplied per tick.
-/

/-- Constant `COUNTDOWN_SECONDS` from the source. -/
def COUNTDOWN_SECONDS : Nat := 10

/-- Models Rust `char::to_digit(10)`: `some (c - '0')` for ASCII `'0'..='9'`
(code points 48–57), otherwise `none`. -/
def charToDigit? (c : Char) : Option Nat :=
  if 48 ≤ c.toNat ∧ c.toNat ≤ 57 then some (c.toNat - 48) else none

/-- Models `guess.iter().map(|c| c.to_digit(10).unwrap()).collect()`:
`none` is the panic of the first failing `unwrap`. -/
def digitsOfChars : List Char → Option (List Nat)
  | [] => some []
  | c :: cs =>
    match charToDigit? c, digitsOfChars cs with
    | some d, some ds => some (d :: ds)
    | _, _ => none

/-- Little-endian decimal digits of `n` with explicit structural fuel
(`fuel ≥ n` is enough, since a positive number has no more digits than its
value). -/
def toDigitsRev (fuel n : Nat) : List Nat :=
  match fuel with
  | 0 => []
  | fuel + 1 => if n = 0 then [] else n % 10 :: toDigitsRev fuel (n / 10)

/-- Models `n.to_string().chars().map(to_digit)`: the big-endian decimal
digit sequence of `n`, `[0]` for `n = 0`.  A leading zero of the original
digit sequence is *not* recoverable from `n`. -/
def decDigits (n : Nat) : List Nat :=
  if n = 0 then [0] else (toDigitsRev n n).reverse

/-- Models `number_str.parse::<u32>()` on the concatenation of the digits
`ds`: the value of `ds` read as a big-endian decimal numeral.  (For the
generator's inputs the value is below `10^9 < 2^32`, so the `u32` parse
never overflows and `Nat` is faithful.) -/
def natOfDigits (ds : List Nat) : Nat :=
  ds.foldl (fun acc d => acc * 10 + d) 0

/-- Models `Vec::insert(i, a)` (`l.take i ++ a :: l.drop i`; the source
calls it with `i ≤ l.length`, so no panic case is needed). -/
def insertAt (l : List Nat) (i : Nat) (a : Nat) : List Nat :=
  l.take i ++ a :: l.drop i

/-- The `Game` struct: the secret stored as a decimal integer, plus the
level. -/
structure Game where
  secret_number : Nat
  level : Nat
deriving DecidableEq

/-- Models `Game::new`.  The RNG outcomes are parameters: `perm` is the
shuffled pool `(1..=9).collect()` and `zeroIdx` the random index in
`0..=9` at which `0` is inserted.  The secret is the first `level` digits
of the resulting sequence, stored as the parsed integer. -/
def Game.new (level : Nat) (perm : List Nat) (zeroIdx : Nat) : Except String Game :=
  if level < 3 ∨ 9 < level then
    .error "Invalid level. The level should be between 3 and 9."
  else
    .ok { secret_number := natOfDigits ((insertAt perm zeroIdx 0).take level),
          level := level }

/-- The body of the first scoring loop of `check_guess`: on a
(secret digit, guess digit) pair, a match increments the hit count and
marks the *secret* digit in the `matched` array. -/
def hitStep (acc : Nat × List Bool) (p : Nat × Nat) : Nat × List Bool :=
  if p.1 = p.2 then (acc.1 + 1, acc.2.set p.1 true) else acc

/-- The two scoring loops of `check_guess`, on digit sequences.  The first
loop walks the secret's digits, counts hits and marks the secret digit of
each hit in the `matched` array (`[false; 10]`); the second loop counts a
blow for every guess digit that is unmatched and occurs in the secret.
The first loop reads the guess at the secret's indices, so it is applied
to `S.zip G` (the source precondition `|G| ≥ |S|` is enforced by the
caller `check_guess`). -/
def scoreDigits (S G : List Nat) : Nat × Nat :=
  let hm := (S.zip G).foldl hitStep (0, List.replicate 10 false)
  (hm.1, G.countP fun d => !(hm.2.getD d false) && decide (d ∈ S))

/-- Models `Game::check_guess` on a stored secret and the entered
characters.  `none` models a panic: a non-digit character fails the
`to_digit(10).unwrap()`, and a guess shorter than the reconstructed secret
digit sequence fails the index `guess_digits[i]` in the first loop.
(The `matched` array accesses are always in range: both digit sources
produce values `< 10`.) -/
def check_guess (secret_number : Nat) (guess : List Char) : Option (Nat × Nat) :=
  let secret_digits := decDigits secret_number
  match digitsOfChars guess with
  | none => none
  | some guess_digits =>
    if secret_digits.length ≤ guess_digits.length then
      some (scoreDigits secret_digits guess_digits)
    else none

/-- Enum `GameResult` from the source. -/
inductive GameResult where
  | Won
  | Lose
deriving DecidableEq

/-- The mutable state of one iteration of the `loop` in `Game::play`:
the immutable `self` fields (`secret_number`, `level`), the entry buffer
`entered_chars`, the attempt counter, and the clock anchor `start_time`
(an abstract timestamp in whole seconds). -/
structure RoundState where
  secret_number : Nat
  level : Nat
  buffer : List Char
  attempts : Nat
  anchor : Nat
deriving DecidableEq

/-- Outcome of a single loop iteration.  Terminal outcomes record the
value of the shared stop flag at the moment of return (the source writes
the flag immediately before each `return`); `won` also records the
attempt count rendered in the win message.  `panicked` models an `unwrap`
or indexing panic inside `check_guess`. -/
inductive TickOut where
  | cont (s : RoundState)
  | lost (stopFlag : Bool)
  | won (reportedAttempts : Nat) (stopFlag : Bool)
  | panicked
deriving DecidableEq

/-- The `try_recv` step: at most one character is drained per iteration
and pushed onto the buffer. -/
def pushInput (buffer : List Char) (input : Option Char) : List Char :=
  match input with
  | none => buffer
  | some c => buffer ++ [c]

/-- One iteration of the `loop` in `Game::play`, at absolute time `now`
with `input` the at-most-one character available from the channel:
compute the saturating remaining time; on timeout set the stop flag and
return `Lose`; otherwise push the input, and if the buffer reached
`level`, score it — a full hit count sets the stop flag and returns
`Won` with the current attempt count, otherwise `attempts` is
incremented, the clock re-anchored to `now`, and the buffer cleared. -/
def tick (s : RoundState) (now : Nat) (input : Option Char) : TickOut :=
  let remaining := COUNTDOWN_SECONDS - (now - s.anchor)
  if remaining = 0 then
    .lost true
  else
    let buffer := pushInput s.buffer input
    if buffer.length = s.level then
      match check_guess s.secret_number buffer with
      | none => .panicked
      | some hb =>
        if hb.1 = s.level then
          .won s.attempts true
        else
          .cont { s with buffer := [], attempts := s.attempts + 1, anchor := now }
    else
      .cont { s with buffer := buffer }

/-- Result of running the round loop on a finite schedule of ticks. -/
inductive RunResult where
  | outOfTicks (s : RoundState)
  | lost (stopFlag : Bool)
  | won (reportedAttempts : Nat) (stopFlag : Bool)
  | panicked
deriving DecidableEq

/-- The `loop` of `Game::play`, driven by a finite schedule: each tick is
a pair of the current time and the at-most-one character drained from the
input channel. -/
def run (s : RoundState) : List (Nat × Option Char) → RunResult
  | [] => .outOfTicks s
  | (now, input) :: rest =>
    match tick s now input with
    | .cont s₁ => run s₁ rest
    | .lost f => .lost f
    | .won k f => .won k f
    | .panicked => .panicked

/-- The state at the top of the loop in `Game::play`: empty buffer, zero
attempts, clock anchored at the entry time `t0`. -/
def initState (g : Game) (t0 : Nat) : RoundState :=
  { secret_number := g.secret_number, level := g.level,
    buffer := [], attempts := 0, anchor := t0 }

/-- Ghost count of completed incorrect guesses along a tick schedule,
defined only from the buffer/clock evolution of `tick` (not from the
attempt counter): an iteration that completes a guess with hits < level
contributes 1 and continues with a cleared buffer and a re-anchored
clock; the count stops at a timeout, a win, or a panic. -/
def incorrectCompletions (secret level : Nat) (buffer : List Char) (anchor : Nat) :
    List (Nat × Option Char) → Nat
  | [] => 0
  | (now, input) :: rest =>
    if COUNTDOWN_SECONDS - (now - anchor) = 0 then 0
    else
      let buf := pushInput buffer input
      if buf.length = level then
        match check_guess secret buf with
        | none => 0
        | some hb =>
          if hb.1 = level then 0
          else incorrectCompletions secret level [] now rest + 1
      else incorrectCompletions secret level buf anchor rest

example : decDigits 12 = [1, 2] := by decide
example : decDigits 0 = [0] := by decide
example : decDigits 123 = [1, 2, 3] := by decide
example : natOfDigits [0, 1, 2] = 12 := by decide
example : Game.new 3 [1, 2, 3, 4, 5, 6, 7, 8, 9] 0 =
    .ok { secret_number := 12, level := 3 } := rfl
example : scoreDigits [1, 2, 3] [3, 2, 1] = (1, 2) := by decide
example : scoreDigits [5, 0, 7, 2] [5, 2, 7, 0] = (2, 2) := by decide
example : scoreDigits [1, 2, 3] [4, 1, 1] = (0, 2) := by decide
example : check_guess 123 ['3', '2', '1'] = some (1, 2) := by decide

/-! ### Helper lemmas about digits and parsing -/

theorem charToDigit?_lt {c : Char} {d : Nat} (h : charToDigit? c = some d) : d < 10 := by
  unfold charToDigit? at h
  split at h
  · next hc =>
    cases h
    omega
  · cases h

theorem digitsOfChars_total {cs : List Char}
    (h : ∀ c ∈ cs, 48 ≤ c.toNat ∧ c.toNat ≤ 57) :
    ∃ ds, digitsOfChars cs = some ds ∧ ds.length = cs.length := by
  induction cs with
  | nil => exact ⟨[], rfl, rfl⟩
  | cons c cs ih =>
    obtain ⟨ds, hds, hlen⟩ := ih (fun x hx => h x (List.mem_cons_of_mem c hx))
    have hc := h c (List.mem_cons_self c cs)
    refine ⟨(c.toNat - 48) :: ds, ?_, by simp [hlen]⟩
    simp only [digitsOfChars, charToDigit?, if_pos hc, hds]

theorem toDigitsRev_length_le {fuel n k : Nat} (hfuel : n ≤ fuel) (hk : n < 10 ^ k) :
    (toDigitsRev fuel n).length ≤ k := by
  induction fuel generalizing n k with
  | zero => simp [toDigitsRev]
  | succ fuel ih =>
    by_cases h0 : n = 0
    · simp [toDigitsRev, h0]
    · have hk0 : k ≠ 0 := by
        rintro rfl
        omega
      obtain ⟨k, rfl⟩ := Nat.exists_eq_succ_of_ne_zero hk0
      have hdiv : n / 10 < 10 ^ k :=
        Nat.div_lt_of_lt_mul (by simpa [Nat.pow_succ, Nat.mul_comm] using hk)
      have hfuel2 : n / 10 ≤ fuel := by
        have : n / 10 < n := Nat.div_lt_self (Nat.pos_of_ne_zero h0) (by norm_num)
        omega
      simpa [toDigitsRev, h0] using ih hfuel2 hdiv

theorem decDigits_length_le {n k : Nat} (hk : n < 10 ^ k) (h1 : 1 ≤ k) :
    (decDigits n).length ≤ k := by
  by_cases h0 : n = 0
  · simpa [decDigits, h0] using h1
  · simpa [decDigits, h0] using toDigitsRev_length_le (Nat.le_refl n) hk

theorem natOfDigits_aux_lt (ds : List Nat) (acc : Nat) (h : ∀ d ∈ ds, d < 10) :
    ds.foldl (fun acc d => acc * 10 + d) acc < (acc + 1) * 10 ^ ds.length := by
  induction ds generalizing acc with
  | nil => simp
  | cons d ds ih =>
    have hd : d < 10 := h d (List.mem_cons_self d ds)
    have := ih (acc * 10 + d) (fun x hx => h x (List.mem_cons_of_mem d hx))
    calc (d :: ds).foldl (fun acc d => acc * 10 + d) acc
        = ds.foldl (fun acc d => acc * 10 + d) (acc * 10 + d) := by simp [List.foldl_cons]
      _ < (acc * 10 + d + 1) * 10 ^ ds.length := this
      _ ≤ ((acc + 1) * 10) * 10 ^ ds.length := by
          have : acc * 10 + d + 1 ≤ (acc + 1) * 10 := by omega
          exact Nat.mul_le_mul_right _ this
      _ = (acc + 1) * 10 ^ (d :: ds).length := by ring_nf; simp [Nat.pow_succ]; ring

theorem natOfDigits_lt {ds : List Nat} (h : ∀ d ∈ ds, d < 10) :
    natOfDigits ds < 10 ^ ds.length := by
  simpa [natOfDigits] using natOfDigits_aux_lt ds 0 h

/-! ### Helper lemmas about the scoring loops -/

theorem hitStep_foldl_fst (pairs : List (Nat × Nat)) (h : Nat) (m : List Bool) :
    (pairs.foldl hitStep (h, m)).1 = h + pairs.countP (fun p => decide (p.1 = p.2)) := by
  induction pairs generalizing h m with
  | nil => simp
  | cons p ps ih =>
    by_cases hp : p.1 = p.2
    · simp [hitStep, hp, ih, List.countP_cons]
      omega
    · simp [hitStep, hp, ih, List.countP_cons]

theorem hitStep_foldl_len (pairs : List (Nat × Nat)) (h : Nat) (m : List Bool) :
    (pairs.foldl hitStep (h, m)).2.length = m.length := by
  induction pairs generalizing h m with
  | nil => rfl
  | cons p ps ih =>
    by_cases hp : p.1 = p.2 <;> simp [hitStep, hp, ih]

theorem getD_set_true (m : List Bool) (i d : Nat) :
    ((m.set i true).getD d false = true) ↔
      ((i = d ∧ d < m.length) ∨ m.getD d false = true) := by
  induction m generalizing i d with
  | nil => simp
  | cons b m ih =>
    cases i with
    | zero =>
      cases d with
      | zero => simp
      | succ d => simp
    | succ i =>
      cases d with
      | zero => simp
      | succ d => simpa [List.getD_cons_succ] using ih i d

theorem getD_replicate_false (k d : Nat) :
    (List.replicate k false).getD d false = false := by
  induction k generalizing d with
  | zero => rfl
  | succ k ih =>
    cases d with
    | zero => rfl
    | succ d =>
      rw [List.replicate_succ, List.getD_cons_succ]
      exact ih d

theorem hitStep_foldl_matched (pairs : List (Nat × Nat)) (h : Nat) (m : List Bool) (d : Nat) :
    ((pairs.foldl hitStep (h, m)).2.getD d false = true) ↔
      (m.getD d false = true ∨
        (d < m.length ∧ ∃ p ∈ pairs, p.1 = p.2 ∧ p.1 = d)) := by
  induction pairs generalizing h m with
  | nil => simp
  | cons p ps ih =>
    by_cases hp : p.1 = p.2
    · have : (p :: ps).foldl hitStep (h, m) = ps.foldl hitStep (h + 1, m.set p.1 true) := by
        simp [hitStep, hp]
      rw [this, ih, getD_set_true]
      simp only [List.length_set, List.mem_cons]
      constructor
      · rintro ((⟨h0, hd⟩ | hm) | ⟨hd, q, hq, h1, h2⟩)
        · exact Or.inr ⟨hd, p, Or.inl rfl, hp, h0⟩
        · exact Or.inl hm
        · exact Or.inr ⟨hd, q, Or.inr hq, h1, h2⟩
      · rintro (hm | ⟨hd, q, hq | hq, h1, h2⟩)
        · exact Or.inl (Or.inr hm)
        · exact Or.inl (Or.inl ⟨hq ▸ h2, hd⟩)
        · exact Or.inr ⟨hd, q, hq, h1, h2⟩
    · have : (p :: ps).foldl hitStep (h, m) = ps.foldl hitStep (h, m) := by
        simp [hitStep, hp]
      rw [this, ih]
      simp only [List.mem_cons]
      constructor
      · rintro (hm | ⟨hd, q, hq, h1, h2⟩)
        · exact Or.inl hm
        · exact Or.inr ⟨hd, q, Or.inr hq, h1, h2⟩
      · rintro (hm | ⟨hd, q, hq | hq, h1, h2⟩)
        · exact Or.inl hm
        · exact absurd (hq ▸ h1) hp
        · exact Or.inr ⟨hd, q, hq, h1, h2⟩

/-- The `matched` array of `scoreDigits S G` holds a digit `d` iff some
position scored a hit on `d`. -/
theorem matched_spec (S G : List Nat) (d : Nat) :
    (((S.zip G).foldl hitStep (0, List.replicate 10 false)).2.getD d false = true) ↔
      (d < 10 ∧ ∃ p ∈ S.zip G, p.1 = p.2 ∧ p.1 = d) := by
  rw [hitStep_foldl_matched]
  simp only [getD_replicate_false, List.length_replicate]
  simp

theorem scoreDigits_fst (S G : List Nat) :
    (scoreDigits S G).1 = (S.zip G).countP (fun p => decide (p.1 = p.2)) := by
  simp [scoreDigits, hitStep_foldl_fst]

theorem countP_add_le_length {α : Type} (l : List α) (p q : α → Bool)
    (h : ∀ a ∈ l, ¬(p a = true ∧ q a = true)) :
    l.countP p + l.countP q ≤ l.length := by
  induction l with
  | nil => simp
  | cons a l ih =>
    have ha := h a (List.mem_cons_self a l)
    have hl := ih (fun x hx => h x (List.mem_cons_of_mem a hx))
    cases hp : p a <;> cases hq : q a <;>
      simp [List.countP_cons, hp, hq] at ha ⊢ <;> omega

theorem countP_add_eq_length {α : Type} (l : List α) (p q : α → Bool)
    (h : ∀ a ∈ l, (p a = true ↔ ¬ q a = true)) :
    l.countP p + l.countP q = l.length := by
  induction l with
  | nil => simp
  | cons a l ih =>
    have ha := h a (List.mem_cons_self a l)
    have hl := ih (fun x hx => h x (List.mem_cons_of_mem a hx))
    cases hp : p a <;> cases hq : q a <;>
      simp [List.countP_cons, hp, hq] at ha ⊢ <;> omega

theorem zip_forall_eq {S G : List Nat} (hlen : S.length = G.length)
    (h : ∀ p ∈ S.zip G, p.1 = p.2) : S = G := by
  induction S generalizing G with
  | nil => cases G with
    | nil => rfl
    | cons g G => simp at hlen
  | cons s S ih =>
    cases G with
    | nil => simp at hlen
    | cons g G =>
      have h1 : s = g := h (s, g) (List.mem_cons_self _ _)
      have h2 : S = G := by
        refine ih (by simpa using hlen) (fun p hp => h p ?_)
        exact List.mem_cons_of_mem _ hp
      rw [h1, h2]

theorem mem_zip_same {S : List Nat} {p : Nat × Nat} (h : p ∈ S.zip S) : p.1 = p.2 := by
  induction S with
  | nil => simp at h
  | cons s S ih =>
    rw [List.zip_cons_cons] at h
    rcases List.mem_cons.1 h with h1 | h1
    · rw [h1]
    · exact ih h1

theorem scoreDigits_snd (S G : List Nat) :
    (scoreDigits S G).2 =
      G.countP fun d =>
        !(((S.zip G).foldl hitStep (0, List.replicate 10 false)).2.getD d false) &&
          decide (d ∈ S) := rfl

theorem countP_over_snd (S G : List Nat) (hlen : G.length ≤ S.length) (q : Nat → Bool) :
    G.countP q = (S.zip G).countP (fun p => q p.2) := by
  conv_lhs => rw [← List.map_snd_zip S G hlen]
  rw [List.countP_map]
  rfl

/-- C2: for same-length secret and guess digit sequences, the secret with
pairwise-distinct digits, the scoring loops of `check_guess`
(`scoreDigits`) return `(hits, blows)` with `hits + blows ≤ L`, and
`hits = L` exactly when the guess equals the secret. -/
theorem scoreDigits_bound_and_win_iff (S G : List Nat) (hlen : S.length = G.length)
    (hnd : S.Nodup) (hS : ∀ d ∈ S, d < 10) :
    (scoreDigits S G).1 + (scoreDigits S G).2 ≤ S.length ∧
      ((scoreDigits S G).1 = S.length ↔ G = S) := by
  have hzip : (S.zip G).length = S.length := by
    simp [List.length_zip, hlen]
  have hsnd : (scoreDigits S G).2 =
      (S.zip G).countP
        (fun p =>
          !(((S.zip G).foldl hitStep (0, List.replicate 10 false)).2.getD p.2 false) &&
            decide (p.2 ∈ S)) := by
    rw [scoreDigits_snd, countP_over_snd S G (le_of_eq hlen.symm)]
  constructor
  · rw [scoreDigits_fst, hsnd]
    have hdisj : ∀ a ∈ S.zip G,
        ¬((fun p : Nat × Nat => decide (p.1 = p.2)) a = true ∧
          (fun p : Nat × Nat =>
              !(((S.zip G).foldl hitStep (0, List.replicate 10 false)).2.getD p.2 false) &&
                decide (p.2 ∈ S)) a = true) := by
      rintro a ha ⟨h1, h2⟩
      have heq : a.1 = a.2 := of_decide_eq_true h1
      simp only [Bool.and_eq_true, Bool.not_eq_true'] at h2
      have hmem : a.1 ∈ S := (List.of_mem_zip ha).1
      have hMt : ((S.zip G).foldl hitStep (0, List.replicate 10 false)).2.getD a.2 false = true :=
        (matched_spec S G a.2).2 ⟨heq ▸ hS a.1 hmem, a, ha, heq, heq⟩
      rw [hMt] at h2
      exact absurd h2.1 (by simp)
    calc (S.zip G).countP (fun p => decide (p.1 = p.2)) + (S.zip G).countP _
        ≤ (S.zip G).length := countP_add_le_length _ _ _ hdisj
      _ = S.length := hzip
  · rw [scoreDigits_fst]
    constructor
    · intro h
      have : ∀ p ∈ S.zip G, (fun p : Nat × Nat => decide (p.1 = p.2)) p = true :=
        List.countP_eq_length.1 (by rw [h, hzip])
      exact (zip_forall_eq hlen (fun p hp => of_decide_eq_true (this p hp))).symm
    · rintro rfl
      rw [← hzip]
      exact List.countP_eq_length.2 (fun p hp => decide_eq_true (mem_zip_same hp))

/-- Witness for `scoreDigits_bound_and_win_iff` at the spec's scenario S3:
secret `[1,2,3]`, guess `[3,2,1]`. -/
theorem scoreDigits_bound_and_win_iff_witness :
    (scoreDigits [1, 2, 3] [3, 2, 1]).1 + (scoreDigits [1, 2, 3] [3, 2, 1]).2 ≤
        ([1, 2, 3] : List Nat).length ∧
      ((scoreDigits [1, 2, 3] [3, 2, 1]).1 = ([1, 2, 3] : List Nat).length ↔
        [3, 2, 1] = [1, 2, 3]) :=
  scoreDigits_bound_and_win_iff [1, 2, 3] [3, 2, 1] rfl (by decide) (by decide)

theorem getElem_idx_congr {S : List Nat} {i j : Nat} (h : i = j)
    (hi : i < S.length) (hj : j < S.length) : S[i] = S[j] := by
  subst h
  rfl

theorem mem_zip_reverse {S : List Nat} {a : Nat × Nat} (ha : a ∈ S.zip S.reverse) :
    ∃ i, ∃ hi : i < S.length, a.1 = S[i] ∧ a.2 = S[S.length - 1 - i] := by
  obtain ⟨i, hi, hget⟩ := List.mem_iff_getElem.1 ha
  have hiz : i < S.length := by
    simp only [List.length_zip, List.length_reverse, Nat.min_self] at hi
    exact hi
  have hir : i < S.reverse.length := by
    simpa [List.length_reverse] using hiz
  refine ⟨i, hiz, ?_, ?_⟩
  · rw [← hget, List.getElem_zip]
  · rw [← hget, List.getElem_zip]
    exact List.getElem_reverse hir

/-- Pointwise analysis of scoring the reversed secret: a position of
`S.zip S.reverse` is a hit exactly when its guess digit ends up marked in
the `matched` array (this uses the distinctness of the secret digits). -/
theorem zip_reverse_hit_iff (S : List Nat) (hnd : S.Nodup) (hS : ∀ d ∈ S, d < 10)
    (a : Nat × Nat) (ha : a ∈ S.zip S.reverse) :
    (a.1 = a.2) ↔
      (((S.zip S.reverse).foldl hitStep (0, List.replicate 10 false)).2.getD a.2 false
        = true) := by
  obtain ⟨i, hi, h1, h2⟩ := mem_zip_reverse ha
  have ha2S : a.2 ∈ S := List.mem_reverse.1 (List.of_mem_zip ha).2
  rw [matched_spec]
  constructor
  · intro h
    exact ⟨hS a.2 ha2S, a, ha, h, h⟩
  · rintro ⟨hd, p, hp, hhit, hpd⟩
    obtain ⟨j, hj, g1, g2⟩ := mem_zip_reverse hp
    have hb : S.length - 1 - i < S.length := by omega
    have hji : j = S.length - 1 - i := by
      have hSj : S[j] = S[S.length - 1 - i] := by
        rw [← g1, hpd, h2]
      exact (hnd.getElem_inj_iff).1 hSj
    have h3 : p.2 = S[i] := by
      rw [g2]
      exact getElem_idx_congr (by omega) (by omega) hi
    calc a.1 = S[i] := h1
      _ = p.2 := h3.symm
      _ = p.1 := hhit.symm
      _ = a.2 := hpd

/-- C4: for a secret `S` of pairwise-distinct digits whose reverse differs
from it, scoring the reversed secret as the guess accounts for every
position: `hits + blows = |S|`. -/
theorem scoreDigits_reverse_sum (S : List Nat) (hnd : S.Nodup)
    (hS : ∀ d ∈ S, d < 10) (hne : S.reverse ≠ S) :
    (scoreDigits S S.reverse).1 + (scoreDigits S S.reverse).2 = S.length := by
  have hlen : S.length = S.reverse.length := (List.length_reverse S).symm
  have hzip : (S.zip S.reverse).length = S.length := by
    simp [List.length_zip]
  have hsnd : (scoreDigits S S.reverse).2 =
      (S.zip S.reverse).countP
        (fun p =>
          !(((S.zip S.reverse).foldl hitStep (0, List.replicate 10 false)).2.getD p.2 false) &&
            decide (p.2 ∈ S)) := by
    rw [scoreDigits_snd, countP_over_snd S S.reverse (le_of_eq hlen.symm)]
  rw [scoreDigits_fst, hsnd, ← hzip]
  apply countP_add_eq_length
  intro a ha
  have ha2S : a.2 ∈ S := List.mem_reverse.1 (List.of_mem_zip ha).2
  have hiff := zip_reverse_hit_iff S hnd hS a ha
  simp only [decide_eq_true_eq, Bool.and_eq_true, Bool.not_eq_true', ha2S, decide_True,
    and_true]
  rw [hiff]
  simp

/-- Witness for `scoreDigits_reverse_sum`: secret `[1,2,3]`, reversed
guess `[3,2,1]` (spec scenario S3: 1 hit + 2 blows = 3). -/
theorem scoreDigits_reverse_sum_witness :
    (scoreDigits [1, 2, 3] (List.reverse [1, 2, 3])).1 +
        (scoreDigits [1, 2, 3] (List.reverse [1, 2, 3])).2 = ([1, 2, 3] : List Nat).length :=
  scoreDigits_reverse_sum [1, 2, 3] (by decide) (by decide) (by decide)

/-- C1 (failing input): with the shuffled pool in identity order and the
zero inserted at index 0, `Game::new 3` generates the digit sequence
`[0,1,2]` but stores the secret as the parsed integer `12`; the digit
sequence the scorer later reconstructs from the stored secret
(`decDigits`) has length 2, not the generated length 3 — the leading zero
is lost by the integer normalisation. -/
theorem new_leading_zero_loses_digit :
    (insertAt [1, 2, 3, 4, 5, 6, 7, 8, 9] 0 0).take 3 = [0, 1, 2] ∧
      Game.new 3 [1, 2, 3, 4, 5, 6, 7, 8, 9] 0 = .ok { secret_number := 12, level := 3 } ∧
      (decDigits 12).length = 2 :=
  ⟨rfl, rfl, rfl⟩

/-- C9: `Game::new` fails with the invalid-level error exactly when the
level is outside `[3,9]`; on an invalid level the result does not depend
on the RNG outcomes (the level check precedes the secret construction),
and on every valid level a game is returned. -/
theorem new_invalid_level_iff (level : Nat) (perm : List Nat) (zeroIdx : Nat) :
    ((level < 3 ∨ 9 < level) ↔
        Game.new level perm zeroIdx =
          .error "Invalid level. The level should be between 3 and 9.") ∧
      ((level < 3 ∨ 9 < level) →
        ∀ perm₂ zeroIdx₂, Game.new level perm₂ zeroIdx₂ = Game.new level perm zeroIdx) ∧
      (3 ≤ level ∧ level ≤ 9 → ∃ g, Game.new level perm zeroIdx = .ok g) := by
  by_cases h : level < 3 ∨ 9 < level
  · refine ⟨⟨fun _ => ?_, fun _ => h⟩, fun _ perm₂ zeroIdx₂ => ?_, ?_⟩
    · simp [Game.new, h]
    · simp [Game.new, h]
    · intro hv
      exact absurd hv (by omega)
  · refine ⟨⟨fun hx => absurd hx h, fun hx => ?_⟩, fun hx => absurd hx h, fun _ => ?_⟩
    · rw [Game.new, if_neg h] at hx
      cases hx
    · exact ⟨_, by rw [Game.new, if_neg h]⟩

/-- Witness for `new_invalid_level_iff`: level 2 is rejected independently
of the RNG outcome, level 3 is accepted. -/
theorem new_invalid_level_iff_witness :
    Game.new 2 [1, 2, 3, 4, 5, 6, 7, 8, 9] 0 =
        .error "Invalid level. The level should be between 3 and 9." ∧
      Game.new 2 [9, 8, 7, 6, 5, 4, 3, 2, 1] 5 = Game.new 2 [1, 2, 3, 4, 5, 6, 7, 8, 9] 0 ∧
      ∃ g, Game.new 3 [1, 2, 3, 4, 5, 6, 7, 8, 9] 0 = .ok g :=
  ⟨(new_invalid_level_iff 2 [1, 2, 3, 4, 5, 6, 7, 8, 9] 0).1.1 (by decide),
    (new_invalid_level_iff 2 [1, 2, 3, 4, 5, 6, 7, 8, 9] 0).2.1 (by decide) _ _,
    (new_invalid_level_iff 3 [1, 2, 3, 4, 5, 6, 7, 8, 9] 0).2.2 (by decide)⟩

/-- C10: secret `[1,2,3]` has pairwise-distinct digits; the same-length
guess `[4,1,1]` repeats the digit `1`, which occurs in the secret at a
position that scored no hit.  The blow loop marks only secret digits that
scored hits, so each of the two occurrences of `1` is awarded a blow:
blows = 2, strictly more than the one distinct misplaced guess digit. -/
theorem scoreDigits_duplicate_blow_overcount :
    ([1, 2, 3] : List Nat).Nodup ∧
      ([4, 1, 1] : List Nat).length = ([1, 2, 3] : List Nat).length ∧
      ([4, 1, 1] : List Nat).count 1 = 2 ∧
      1 ∈ ([1, 2, 3] : List Nat) ∧
      scoreDigits [1, 2, 3] [4, 1, 1] = (0, 2) ∧
      (([4, 1, 1] : List Nat).filter (fun d => decide (d ∈ ([1, 2, 3] : List Nat)))).dedup.length
          = 1 ∧
      (scoreDigits [1, 2, 3] [4, 1, 1]).2 >
        (([4, 1, 1] : List Nat).filter
            (fun d => decide (d ∈ ([1, 2, 3] : List Nat)))).dedup.length := by
  decide

/-- C3: `check_guess` is total on every reachable call: for a game built
by `Game::new` from a pool of decimal digits and a full entry buffer of
ASCII digit characters (`'0'..='9'`, code points 48–57), the digit
conversions all succeed and every index access is in range, so a
`(hits, blows)` pair is returned. -/
theorem check_guess_total (level zeroIdx : Nat) (perm : List Nat) (g : Game)
    (hperm : ∀ d ∈ perm, d < 10)
    (hnew : Game.new level perm zeroIdx = .ok g)
    (guess : List Char) (hglen : guess.length = g.level)
    (hdig : ∀ c ∈ guess, 48 ≤ c.toNat ∧ c.toNat ≤ 57) :
    ∃ hb, check_guess g.secret_number guess = some hb := by
  obtain ⟨gd, hgd, hgdlen⟩ := digitsOfChars_total hdig
  have hmem : ∀ d ∈ (insertAt perm zeroIdx 0).take level, d < 10 := by
    intro d hd
    have hd2 := List.mem_of_mem_take hd
    unfold insertAt at hd2
    rcases List.mem_append.1 hd2 with h | h
    · exact hperm d (List.mem_of_mem_take h)
    · rcases List.mem_cons.1 h with rfl | h
      · decide
      · exact hperm d (List.mem_of_mem_drop h)
  rw [Game.new] at hnew
  split at hnew
  · cases hnew
  · next hlevel =>
    cases hnew
    have hval : natOfDigits ((insertAt perm zeroIdx 0).take level) < 10 ^ level := by
      calc natOfDigits ((insertAt perm zeroIdx 0).take level)
          < 10 ^ ((insertAt perm zeroIdx 0).take level).length := natOfDigits_lt hmem
        _ ≤ 10 ^ level := by
            refine Nat.pow_le_pow_right (by norm_num) ?_
            simp [List.length_take]
    have hsec : (decDigits (natOfDigits ((insertAt perm zeroIdx 0).take level))).length
        ≤ level :=
      decDigits_length_le hval (by omega)
    have hg2 : guess.length = level := hglen
    have hlen2 : (decDigits (natOfDigits ((insertAt perm zeroIdx 0).take level))).length
        ≤ gd.length := by
      omega
    refine ⟨scoreDigits (decDigits (natOfDigits ((insertAt perm zeroIdx 0).take level))) gd, ?_⟩
    simp only [check_guess, hgd, if_pos hlen2]

/-- Witness for `check_guess_total`: level 3, identity pool, zero at the
end produce the secret `123`; the entered characters `3 2 1` score without
panic. -/
theorem check_guess_total_witness :
    ∃ hb, check_guess
        ({ secret_number := 123, level := 3 } : Game).secret_number ['3', '2', '1'] = some hb :=
  check_guess_total 3 9 [1, 2, 3, 4, 5, 6, 7, 8, 9] { secret_number := 123, level := 3 }
    (by decide) rfl ['3', '2', '1'] rfl (by decide)

/-! ### Round-loop theorems -/

/-- C5: when the remaining time computed at the top of an iteration is 0,
the iteration returns `Lose` with the stop flag raised before the return;
moreover no terminal outcome (`lost` or `won`) is ever produced with the
stop flag unraised. -/
theorem tick_timeout_and_stop_flag (s : RoundState) (now : Nat) (input : Option Char) :
    (COUNTDOWN_SECONDS - (now - s.anchor) = 0 → tick s now input = .lost true) ∧
      (∀ b, tick s now input = TickOut.lost b → b = true) ∧
      (∀ k b, tick s now input = TickOut.won k b → b = true) := by
  refine ⟨fun h => by simp [tick, h], ?_, ?_⟩
  · intro b hb
    simp only [tick] at hb
    split at hb
    · injection hb with h
      exact h.symm
    · split at hb
      · split at hb
        · cases hb
        · split at hb
          · cases hb
          · cases hb
      · cases hb
  · intro k b hb
    simp only [tick] at hb
    split at hb
    · cases hb
    · split at hb
      · split at hb
        · cases hb
        · split at hb
          · injection hb with h1 h2
            exact h2.symm
          · cases hb
      · cases hb

/-- Witness for `tick_timeout_and_stop_flag`: with the clock anchored at 0
and the current time 10, the remaining time is 0 and the iteration
returns `Lose` with the flag raised. -/
theorem tick_timeout_and_stop_flag_witness :
    tick { secret_number := 123, level := 3, buffer := [], attempts := 0, anchor := 0 }
        10 none = .lost true ∧ true = true :=
  ⟨(tick_timeout_and_stop_flag
      { secret_number := 123, level := 3, buffer := [], attempts := 0, anchor := 0 }
      10 none).1 (by decide),
    (tick_timeout_and_stop_flag
      { secret_number := 123, level := 3, buffer := [], attempts := 0, anchor := 0 }
      10 none).2.1 true
      ((tick_timeout_and_stop_flag
        { secret_number := 123, level := 3, buffer := [], attempts := 0, anchor := 0 }
        10 none).1 (by decide))⟩

/-- C7: an iteration that completes an incorrect guess (no timeout, the
buffer reaches `level` after the drain, hits < level) continues with the
attempt counter incremented by one, the entry buffer cleared, and the
clock re-anchored to `now` — after which the remaining-time computation
yields the full `COUNTDOWN_SECONDS` budget — while the secret and the
level are unchanged. -/
theorem tick_incorrect_guess_frame (s : RoundState) (now : Nat) (input : Option Char)
    (hb : Nat × Nat)
    (h0 : COUNTDOWN_SECONDS - (now - s.anchor) ≠ 0)
    (hfull : (pushInput s.buffer input).length = s.level)
    (hcg : check_guess s.secret_number (pushInput s.buffer input) = some hb)
    (hmiss : hb.1 ≠ s.level) :
    tick s now input = .cont ⟨s.secret_number, s.level, [], s.attempts + 1, now⟩ ∧
      COUNTDOWN_SECONDS - (now - now) = COUNTDOWN_SECONDS := by
  constructor
  · simp only [tick, if_neg h0, if_pos hfull, hcg, if_neg hmiss]
  · simp

/-- Witness for `tick_incorrect_guess_frame`: secret `123`, buffer `4 5`
completed by `6` at time 1 — a wrong guess; the state continues with one
attempt, an empty buffer and the clock anchored at 1. -/
theorem tick_incorrect_guess_frame_witness :
    tick { secret_number := 123, level := 3, buffer := ['4', '5'], attempts := 0, anchor := 0 }
        1 (some '6') =
      .cont { secret_number := 123, level := 3, buffer := [], attempts := 1, anchor := 1 } ∧
      COUNTDOWN_SECONDS - (1 - 1) = COUNTDOWN_SECONDS :=
  tick_incorrect_guess_frame
    { secret_number := 123, level := 3, buffer := ['4', '5'], attempts := 0, anchor := 0 }
    1 (some '6') (0, 0) (by decide) (by decide) (by decide) (by decide)

/-- C6: if the round loop returns `Won k`, the reported count `k` equals
the attempt counter at entry plus the number of incorrect completed
guesses performed during the run; started from the loop's initial state
(attempts = 0) the win therefore reports exactly the number of prior
incorrect L-digit completions, and a first-guess win reports 0. -/
theorem run_won_reports_incorrect_completions (trace : List (Nat × Option Char)) :
    ∀ (s : RoundState) (k : Nat) (f : Bool),
      run s trace = .won k f →
      k = s.attempts +
        incorrectCompletions s.secret_number s.level s.buffer s.anchor trace := by
  induction trace with
  | nil =>
    intro s k f h
    cases h
  | cons t rest ih =>
    obtain ⟨now, input⟩ := t
    intro s k f h
    rw [run] at h
    rw [incorrectCompletions]
    by_cases h0 : COUNTDOWN_SECONDS - (now - s.anchor) = 0
    · simp only [tick, if_pos h0] at h
      simp at h
    · simp only [tick, if_neg h0] at h
      rw [if_neg h0]
      by_cases hfull : (pushInput s.buffer input).length = s.level
      · simp only [if_pos hfull] at h ⊢
        cases hcg : check_guess s.secret_number (pushInput s.buffer input) with
        | none =>
          rw [hcg] at h
          simp at h
        | some hb =>
          rw [hcg] at h
          simp only at h ⊢
          by_cases hwin : hb.1 = s.level
          · simp only [if_pos hwin] at h ⊢
            injection h with h1 h2
            omega
          · simp only [if_neg hwin] at h ⊢
            have hrec := ih _ k f h
            simp only at hrec
            omega
      · simp only [if_neg hfull] at h ⊢
        have hrec := ih _ k f h
        simp only at hrec
        exact hrec

/-- Witness for `run_won_reports_incorrect_completions`: secret `123`,
one wrong completed guess `4 5 6` followed by the correct `1 2 3`; the
win reports 1 = 0 + 1 prior incorrect completion. -/
theorem run_won_reports_incorrect_completions_witness :
    1 = (initState { secret_number := 123, level := 3 } 0).attempts +
      incorrectCompletions 123 3 [] 0
        [(0, some '4'), (0, some '5'), (0, some '6'),
          (1, some '1'), (1, some '2'), (1, some '3')] :=
  run_won_reports_incorrect_completions
    [(0, some '4'), (0, some '5'), (0, some '6'),
      (1, some '1'), (1, some '2'), (1, some '3')]
    (initState { secret_number := 123, level := 3 } 0) 1 true (by decide)

theorem pushInput_length (b : List Char) (i : Option Char) :
    (pushInput b i).length = b.length ∨ (pushInput b i).length = b.length + 1 := by
  cases i with
  | none => exact Or.inl rfl
  | some c => exact Or.inr (by simp [pushInput])

theorem tick_cont_buffer_lt {s : RoundState} {now : Nat} {input : Option Char}
    {s₁ : RoundState} (hs : s.buffer.length < s.level)
    (h : tick s now input = .cont s₁) : s₁.buffer.length < s₁.level := by
  have hpush := pushInput_length s.buffer input
  simp only [tick] at h
  split at h
  · cases h
  · split at h
    · split at h
      · cases h
      · split at h
        · cases h
        · injection h with h1
          rw [← h1]
          simpa using Nat.lt_of_le_of_lt (Nat.zero_le _) hs
    · next hfull =>
      injection h with h1
      rw [← h1]
      simp only
      omega

theorem run_outOfTicks_buffer_lt (trace : List (Nat × Option Char)) :
    ∀ s s₁ : RoundState, s.buffer.length < s.level →
      run s trace = .outOfTicks s₁ → s₁.buffer.length < s₁.level := by
  induction trace with
  | nil =>
    intro s s₁ hs h
    injection h with h1
    rw [← h1]
    exact hs
  | cons t rest ih =>
    obtain ⟨now, input⟩ := t
    intro s s₁ hs h
    rw [run] at h
    cases htk : tick s now input with
    | cont s₂ =>
      rw [htk] at h
      exact ih s₂ s₁ (tick_cont_buffer_lt hs htk) h
    | lost f =>
      rw [htk] at h
      simp at h
    | won k f =>
      rw [htk] at h
      simp at h
    | panicked =>
      rw [htk] at h
      simp at h

/-- C8: the entry buffer never exceeds the level.  An iteration entered
with `|buffer| < level` either terminates or continues again with
`|buffer| < level` (and in particular `|buffer| ≤ level`): a buffer that
reaches `level` during the iteration is scored and, unless the round
ends, cleared within that same iteration.  Consequently every state at
which an iteration of a run from the loop's initial state begins
satisfies `|buffer| < level`. -/
theorem play_buffer_bounded :
    (∀ (s : RoundState) (now : Nat) (input : Option Char) (s₁ : RoundState),
        s.buffer.length < s.level → tick s now input = .cont s₁ →
        s₁.buffer.length < s₁.level ∧ s₁.buffer.length ≤ s₁.level) ∧
      (∀ (g : Game) (t0 : Nat) (trace : List (Nat × Option Char)) (s₁ : RoundState),
        0 < g.level → run (initState g t0) trace = .outOfTicks s₁ →
        s₁.buffer.length < s₁.level ∧ s₁.buffer.length ≤ s₁.level) := by
  constructor
  · intro s now input s₁ hs h
    have := tick_cont_buffer_lt hs h
    exact ⟨this, Nat.le_of_lt this⟩
  · intro g t0 trace s₁ hg h
    have hinit : (initState g t0).buffer.length < (initState g t0).level := by
      simpa [initState] using hg
    have := run_outOfTicks_buffer_lt trace (initState g t0) s₁ hinit h
    exact ⟨this, Nat.le_of_lt this⟩

/-- Witness for `play_buffer_bounded`: one tick pushing `1` onto the empty
buffer of a level-3 round leaves a buffer of length 1 < 3. -/
theorem play_buffer_bounded_witness :
    (({ secret_number := 123, level := 3, buffer := ['1'], attempts := 0, anchor := 0 }
          : RoundState).buffer.length <
        ({ secret_number := 123, level := 3, buffer := ['1'], attempts := 0, anchor := 0 }
          : RoundState).level) ∧
      (({ secret_number := 123, level := 3, buffer := ['1'], attempts := 0, anchor := 0 }
          : RoundState).buffer.length ≤
        ({ secret_number := 123, level := 3, buffer := ['1'], attempts := 0, anchor := 0 }
          : RoundState).level) :=
  play_buffer_bounded.2 { secret_number := 123, level := 3 } 0 [(0, some '1')]
    { secret_number := 123, level := 3, buffer := ['1'], attempts := 0, anchor := 0 }
    (by decide) (by decide)
